import Mathlib

/-!
# Verification of the Ford-Johnson tester harness (`tester.py`)

Shallow embedding of the parts of `tester.py` the specification talks
about, together with theorems settling the specification's claims.

Modelling conventions:
* Python integers are `ℕ`/`ℤ`; the float expression
  `ceil(log2((3.0 / 4.0) * k))` of `calculate_number_of_maximal_comparisons`
  is embedded as its exact value `boundTerm k` (shown in `spec_C1` to be
  the exact `⌈Real.logb 2 (3 * k / 4)⌉`).  The double computation agrees
  with the exact one for every `k` below `2 ^ 51`: `3k/4` is exactly
  representable there, it is never a power of two (`3 ∤ 2 ^ j`), and the
  distance of `log2 (3k/4)` from the nearest integer exceeds the
  rounding error of `log2` until `3k` approaches `2 ^ 53`.
* Python strings are `List Char` where the code computes with them
  (`str.split`, regex matching); they stay `String` where they are only
  carried around (the argv tokens).
* `subprocess.run` is modelled by a `Trial` record carrying the data the
  harness reads off the completed process: the argv tail (`inputs`), the
  exit status (`returncode`) and the captured standard output.
* `random.shuffle` is modelled by quantifying over an arbitrary
  permutation (`List.Perm`) of the materialised range.
* The `__main__` driver is embedded as a recursion over the configured
  size classes; the nondeterministic `as_completed` order is modelled by
  quantifying over the (arbitrary) list order of the per-class trials.
  `print` calls become events tagged with the stream they are written
  to; `exit(1)` becomes an `Except.error` carrying the events emitted up
  to that point.
-/

/-- Fuel-based `Nat.clog 2`: the least `e` with `n ≤ 2 ^ e`, computed by
structural recursion so that the kernel can evaluate it.  Correct when
`n ≤ fuel` (`ceilLog2Nat_eq_clog`). -/
def ceilLog2Nat : ℕ → ℕ → ℕ
  | _, 0 => 0
  | 0, _ => 0
  | fuel + 1, n => if n ≤ 1 then 0 else ceilLog2Nat fuel ((n + 1) / 2) + 1

/-- One term of the bound sum: the exact value of
`ceil(log2((3.0 / 4.0) * k))` (tester.py:48-49).  For `k ≥ 1` the least
`m : ℤ` with `3k/4 ≤ 2 ^ m` is `(least e : ℕ with 3k ≤ 2 ^ e) - 2`;
`spec_C1` proves this term equal to the literal reference formula
`⌈Real.logb 2 (3 * k / 4)⌉`, sign behavior at `k = 1, 2` included. -/
def boundTerm (k : ℕ) : ℤ :=
  (ceilLog2Nat (3 * k) (3 * k) : ℤ) - 2

/-- `calculate_number_of_maximal_comparisons` (tester.py:45-50):
`sum = 0; for k in range(1, n + 1): sum += ceil(log2((3.0 / 4.0) * k))`. -/
def calculate_number_of_maximal_comparisons (n : ℕ) : ℤ :=
  (List.range n).foldl (fun sum i => sum + boundTerm (i + 1)) 0

/-- Value of a decimal digit string, i.e. Python `int(s)` restricted to
strings of ASCII digits. -/
def natOfDigits (l : List Char) : ℕ :=
  l.foldl (fun a c => 10 * a + (c.toNat - 48)) 0

/-- The decimal rendering of a natural number, i.e. Python `str(i)` for
non-negative `i`: most-significant digit first, no leading zeros, and
`"0"` for zero. -/
def decimalChars (n : ℕ) : List Char :=
  if n = 0 then ['0'] else ((Nat.digits 10 n).map Nat.digitChar).reverse

/-- Python `str(i)` for a non-negative integer, as a `String`. -/
def strOfNat (n : ℕ) : String :=
  ⟨decimalChars n⟩

/-- Python `list(range(start, stop))`. -/
def rangeList (start stop : ℕ) : List ℕ :=
  (List.range (stop - start)).map (start + ·)

/-- `create_test_input` (tester.py:109-115) after the shuffle:
`[str(i) for i in res]` where `res` is some permutation of
`list(test_range)`.  The caller supplies the shuffled list. -/
def create_test_input (shuffled : List ℕ) : List String :=
  shuffled.map strOfNat

/-- Python `str.split(sep)` for a one-character separator `c`. -/
def splitOnChar (c : Char) : List Char → List (List Char)
  | [] => [[]]
  | x :: xs =>
    if x = c then [] :: splitOnChar c xs
    else
      match splitOnChar c xs with
      | [] => [[x]]
      | h :: t => (x :: h) :: t

/-- `extract_range` (tester.py:63-71) on one `start-end` token, returning
the endpoints of the Python `range`:
`range_list = range_str.split("-");
 if range_list[0] == range_list[1]: return None;
 return range(int(range_list[0]), int(range_list[1]))`. -/
def extract_range (t : List Char) : Option (ℕ × ℕ) :=
  let parts := splitOnChar '-' t
  if parts[0]! = parts[1]! then none
  else some (natOfDigits parts[0]!, natOfDigits parts[1]!)

/-- Python truthiness of an `extract_range` result: `None` is falsy and
`range(a, b)` is truthy exactly when it is non-empty, i.e. `a < b`. -/
def rangeTruthy : Option (ℕ × ℕ) → Bool
  | none => false
  | some (a, b) => decide (a < b)

/-- The acceptance test of `valid_range` (tester.py:74-94) after the
format regex has matched: `all(ranges)` over the comma-separated tokens;
`false` means `argparse.ArgumentTypeError` is raised. -/
def valid_range_check (toks : List (List Char)) : Bool :=
  (toks.map extract_range).all rangeTruthy

namespace ErrorCode

/-- `ErrorCode.RETURNCODE_ERROR` (tester.py:13). -/
def RETURNCODE_ERROR : ℤ := -1

/-- `ErrorCode.NO_NUMBER_OF_COMPARISONS` (tester.py:14). -/
def NO_NUMBER_OF_COMPARISONS : ℤ := -2

end ErrorCode

/-- The fixed text in front of the digits of the required report line. -/
def compPat : List Char := "Number of comparisons: ".toList

/-- Whether one line of stdout matches the line-anchored pattern
`^Number of comparisons: [0-9]+$` (tester.py:130): the fixed text
followed by one or more ASCII digits and nothing else. -/
def isCompLine (l : List Char) : Bool :=
  (l.take compPat.length == compPat) && !(l.drop compPat.length).isEmpty &&
    (l.drop compPat.length).all Char.isDigit

/-- What `run_test` reads off one completed `subprocess.run`: the argv
tail it passed (`result.args[1:]`), the exit status and the captured
standard output. -/
structure Trial where
  inputs : List String
  returncode : ℤ
  stdout : List Char
deriving DecidableEq

/-- `run_test` (tester.py:118-135).  `re.search(pat, stdout, re.MULTILINE)`
with a `^...$`-anchored pattern finds the first line of stdout matching
the pattern, lines being the chunks between `'\n'` characters; on a
matching line `int(found_pattern.group(0).split()[3])` is the value of
the digits after the fixed text, i.e. of `line.drop compPat.length`. -/
def run_test (t : Trial) : ℤ × List String × ℤ :=
  if t.returncode ≠ 0 then (ErrorCode.RETURNCODE_ERROR, t.inputs, t.returncode)
  else
    match (splitOnChar '\n' t.stdout).find? isCompLine with
    | none => (ErrorCode.NO_NUMBER_OF_COMPARISONS, t.inputs, t.returncode)
    | some line => ((natOfDigits (line.drop compPat.length) : ℤ), t.inputs, t.returncode)

/-- The stream a `print` call writes to. -/
inductive StdStream where
  | stdout
  | stderr
deriving DecidableEq

/-- The messages the `__main__` driver prints, with the data interpolated
into each f-string (tester.py:138-240). -/
inductive Msg where
  /-- `Testing set of {n} numbers:` (tester.py:181). -/
  | classHeader (size : ℕ)
  /-- `Executable failed with {returncode} on input: {inputs}`
  (tester.py:192-195); carries the joined input tokens. -/
  | execFailed (returncode : ℤ) (inputs : List String)
  /-- The fixed instructional message of the missing-report case
  (tester.py:199-203); it interpolates no data, in particular not the
  input tokens. -/
  | parseAdvice
  /-- `Maximal number of comparisons is exceeded on input: {inputs}`
  (tester.py:208-211). -/
  | exceededWarning (inputs : List String)
  /-- `Maximal comparisons allowed: F({n}) = {bound}` (tester.py:215-219). -/
  | maxAllowed (size : ℕ) (bound : ℤ)
  /-- `Worst result: {w}` with its OK/FAIL tag (tester.py:30-42,220-221). -/
  | worstLine (w : ℤ) (fail : Bool)
  /-- `Best result: {b}` with its OK/FAIL tag (tester.py:223-224). -/
  | bestLine (b : ℤ) (fail : Bool)
  /-- `Average result: {a}` with its OK/FAIL tag (tester.py:226-227). -/
  | averageLine (a : ℚ) (fail : Bool)
  /-- The blank separator line between size classes (tester.py:233-234). -/
  | blank
  /-- `ALL OF THE TESTS PASSED` (tester.py:240). -/
  | allPassed
  /-- `SOME OF THE TESTS FAILED` (tester.py:237). -/
  | someFailed
  /-- The traceback of an uncaught `ValueError` from `max([])`
  (tester.py:220); unreachable when every class runs at least one trial. -/
  | valueErrorTraceback
deriving DecidableEq

/-- One `print` call: the stream written to and the message. -/
structure Event where
  stream : StdStream
  msg : Msg
deriving DecidableEq

/-- Whether a message interpolates exactly the given input token list. -/
def msgMentionsInputs (inp : List String) : Msg → Bool
  | .execFailed _ i => i == inp
  | .exceededWarning i => i == inp
  | _ => false

/-- The per-class aggregates of tester.py:215-227. -/
structure ClassStats where
  bound : ℤ
  worst : ℤ
  best : ℤ
  average : ℚ
deriving DecidableEq

/-- The `for future in as_completed(futures)` loop body (tester.py:187-213)
folded over the trial outcomes in completion order: dispatch on the first
component of each `run_test` result, `exit(1)` (= `.error`) on a fatal
outcome, otherwise accumulate the comparison count and, past the bound,
print the warning and set `one_of_inputs_failed`. -/
def runTrials (bound : ℤ) (failed : Bool) (results : List ℤ) (evs : List Event) :
    List Trial → Except (List Event) (Bool × List ℤ × List Event)
  | [] => .ok (failed, results, evs)
  | t :: ts =>
    if (run_test t).1 = ErrorCode.RETURNCODE_ERROR then
      .error (evs ++ [⟨.stderr, .execFailed (run_test t).2.2 (run_test t).2.1⟩])
    else if (run_test t).1 = ErrorCode.NO_NUMBER_OF_COMPARISONS then
      .error (evs ++ [⟨.stderr, .parseAdvice⟩])
    else if bound < (run_test t).1 then
      runTrials bound true (results ++ [(run_test t).1])
        (evs ++ [⟨.stderr, .exceededWarning (run_test t).2.1⟩]) ts
    else
      runTrials bound failed (results ++ [(run_test t).1]) evs ts

/-- The aggregation step of tester.py:215-227 over the non-empty result
list `r :: rs`: `worst_result = max(results)`, `best_result =
min(results)`, `average_result = sum(results) / len(results)` (true
division, modelled exactly in `ℚ`). -/
def classAggregates (bound : ℤ) (r : ℤ) (rs : List ℤ) : ClassStats :=
  ⟨bound, rs.foldl max r, rs.foldl min r,
    (((r :: rs).sum : ℤ) : ℚ) / ((r :: rs).length : ℚ)⟩

/-- One iteration of the size-class loop (tester.py:180-232): print the
header, compute the bound, run all trials, then aggregate
`max(results)`, `min(results)`, `sum(results) / len(results)` and print
the four report lines.  `max`/`min` of an empty list would raise an
uncaught `ValueError` (modelled by the `.error` with the traceback
event); the aggregation happens only on the non-empty branch. -/
def runClass (size : ℕ) (failed : Bool) (evs : List Event) (trials : List Trial) :
    Except (List Event) (Bool × ClassStats × List Event) :=
  match runTrials (calculate_number_of_maximal_comparisons size) failed []
      (evs ++ [⟨.stdout, .classHeader size⟩]) trials with
  | .error e => .error e
  | .ok (failed1, results, evs2) =>
    match results with
    | [] => .error (evs2 ++ [⟨.stderr, .valueErrorTraceback⟩])
    | r :: rs =>
      .ok (failed1, classAggregates (calculate_number_of_maximal_comparisons size) r rs,
        evs2 ++ [⟨.stdout, .maxAllowed size (calculate_number_of_maximal_comparisons size)⟩,
                 ⟨.stdout, .worstLine (classAggregates (calculate_number_of_maximal_comparisons size) r rs).worst
                   (decide (calculate_number_of_maximal_comparisons size <
                     (classAggregates (calculate_number_of_maximal_comparisons size) r rs).worst))⟩,
                 ⟨.stdout, .bestLine (classAggregates (calculate_number_of_maximal_comparisons size) r rs).best
                   (decide (calculate_number_of_maximal_comparisons size <
                     (classAggregates (calculate_number_of_maximal_comparisons size) r rs).best))⟩,
                 ⟨.stdout, .averageLine (classAggregates (calculate_number_of_maximal_comparisons size) r rs).average
                   (decide ((calculate_number_of_maximal_comparisons size : ℚ) <
                     (classAggregates (calculate_number_of_maximal_comparisons size) r rs).average))⟩])

/-- The driver loop over the configured size classes plus the final
verdict (tester.py:180-240): each class is `runClass`; a `.error`
is `exit(1)`; after the last class, `SOME OF THE TESTS FAILED` plus
`exit(1)` or `ALL OF THE TESTS PASSED` plus the implicit exit 0 —
both verdict lines are plain `print` calls, i.e. standard output. -/
def runClasses : List (ℕ × List Trial) → Bool → List Event → ℕ × List Event
  | [], failed, evs =>
    if failed then (1, evs ++ [⟨.stdout, .someFailed⟩])
    else (0, evs ++ [⟨.stdout, .allPassed⟩])
  | (size, trials) :: rest, failed, evs =>
    match runClass size failed evs trials with
    | .error e => (1, e)
    | .ok (failed1, _, evs1) =>
      runClasses rest failed1 (if rest.isEmpty then evs1 else evs1 ++ [⟨.stdout, .blank⟩])

/-- The whole `__main__` run after argument parsing: each configured size
class paired with the completion-ordered outcomes of its trials; returns
the harness's exit code and everything printed. -/
def mainRun (classes : List (ℕ × List Trial)) : ℕ × List Event :=
  runClasses classes false []

/-! ## Theorems -/

theorem ceilLog2Nat_eq_clog : ∀ fuel n, n ≤ fuel → ceilLog2Nat fuel n = Nat.clog 2 n := by
  intro fuel
  induction fuel with
  | zero =>
    intro n hn
    interval_cases n
    simp [ceilLog2Nat, Nat.clog_of_right_le_one]
  | succ fuel ih =>
    intro n hn
    match n with
    | 0 => simp [ceilLog2Nat, Nat.clog_of_right_le_one]
    | n + 1 =>
      by_cases h1 : n + 1 ≤ 1
      · simp [ceilLog2Nat, h1, Nat.clog_of_right_le_one h1]
      · have h2 : 2 ≤ n + 1 := by omega
        have hstep : ceilLog2Nat (fuel + 1) (n + 1) = ceilLog2Nat fuel ((n + 1 + 1) / 2) + 1 := by
          simp [ceilLog2Nat, h1]
        rw [hstep, Nat.clog_of_two_le (by norm_num) h2, ih _ (by omega)]
        congr 2

theorem clog_div_four {x : ℝ} (hx : 0 < x) : Int.clog 2 (x / 4) = Int.clog 2 x - 2 := by
  have hb : (1 : ℕ) < 2 := by norm_num
  have hx4 : 0 < x / 4 := by positivity
  apply le_antisymm
  · rw [← Int.le_zpow_iff_clog_le hb hx4]
    have h1 : x ≤ (2 : ℝ) ^ Int.clog 2 x := Int.self_le_zpow_clog hb x
    have h4 : ((2 : ℕ) : ℝ) ^ (Int.clog 2 x - 2) = ((2 : ℕ) : ℝ) ^ Int.clog 2 x / 4 := by
      rw [zpow_sub₀ (by norm_num)]
      norm_num
    rw [h4]
    push_cast
    linarith
  · have h1 : x / 4 ≤ (2 : ℝ) ^ Int.clog 2 (x / 4) := Int.self_le_zpow_clog hb (x / 4)
    have h2 : x ≤ ((2 : ℕ) : ℝ) ^ (Int.clog 2 (x / 4) + 2) := by
      rw [zpow_add₀ (by norm_num)]
      push_cast
      nlinarith
    have := (Int.le_zpow_iff_clog_le hb hx).mp h2
    omega

theorem boundTerm_eq {k : ℕ} (hk : 1 ≤ k) :
    boundTerm k = ⌈Real.logb 2 ((3 * k : ℝ) / 4)⌉ := by
  have hkpos : (0 : ℝ) < (k : ℝ) := by
    have : (1 : ℝ) ≤ (k : ℝ) := by exact_mod_cast hk
    linarith
  have hx : (0 : ℝ) < (3 * k : ℝ) := by linarith
  have h1 : ⌈Real.logb 2 ((3 * k : ℝ) / 4)⌉ = Int.clog 2 ((3 * k : ℝ) / 4) := by
    rw [show (2 : ℝ) = ((2 : ℕ) : ℝ) by norm_num]
    exact Real.ceil_logb_natCast (by positivity)
  rw [h1, clog_div_four hx, show (3 * k : ℝ) = ((3 * k : ℕ) : ℝ) by push_cast; ring,
    Int.clog_natCast, boundTerm, ceilLog2Nat_eq_clog _ _ le_rfl]

theorem calculate_succ (n : ℕ) :
    calculate_number_of_maximal_comparisons (n + 1) =
      calculate_number_of_maximal_comparisons n + boundTerm (n + 1) := by
  simp [calculate_number_of_maximal_comparisons, List.range_succ]

theorem calculate_eq_sum (n : ℕ) :
    calculate_number_of_maximal_comparisons n =
      ∑ k in Finset.Icc 1 n, ⌈Real.logb 2 ((3 * k : ℝ) / 4)⌉ := by
  induction n with
  | zero => simp [calculate_number_of_maximal_comparisons]
  | succ n ih =>
    rw [calculate_succ, ih, Finset.sum_Icc_succ_top (by omega), boundTerm_eq (by omega)]

/-- C1: for every `n ≥ 1` the bound calculator returns
`Σ_{k=1}^{n} ceil(log2(3k/4))` — the literal reference formula with its
exact sign behavior for small `k` — and for `n = 0` it returns `0`. -/
theorem spec_C1 (n : ℕ) :
    calculate_number_of_maximal_comparisons 0 = 0 ∧
    (1 ≤ n → calculate_number_of_maximal_comparisons n =
      ∑ k in Finset.Icc 1 n, ⌈Real.logb 2 ((3 * k : ℝ) / 4)⌉) :=
  ⟨rfl, fun _ => calculate_eq_sum n⟩

/-- Witness for `spec_C1` at `n = 3`. -/
theorem spec_C1_witness :
    calculate_number_of_maximal_comparisons 0 = 0 ∧
    calculate_number_of_maximal_comparisons 3 =
      ∑ k in Finset.Icc (1 : ℕ) 3, ⌈Real.logb 2 ((3 * k : ℝ) / 4)⌉ :=
  ⟨(spec_C1 3).1, (spec_C1 3).2 (by norm_num)⟩

theorem digitChar_injOn : ∀ a, a < 10 → ∀ b, b < 10 → Nat.digitChar a = Nat.digitChar b → a = b := by
  decide

theorem map_digitChar_inj :
    ∀ l1 l2 : List ℕ, (∀ d ∈ l1, d < 10) → (∀ d ∈ l2, d < 10) →
      l1.map Nat.digitChar = l2.map Nat.digitChar → l1 = l2 := by
  intro l1
  induction l1 with
  | nil =>
    intro l2 _ _ h
    cases l2 with
    | nil => rfl
    | cons b t => simp at h
  | cons a t1 ih =>
    intro l2 h1 h2 h
    cases l2 with
    | nil => simp at h
    | cons b t2 =>
      simp only [List.map_cons, List.cons.injEq] at h
      have ha : a = b :=
        digitChar_injOn a (h1 a (by simp)) b (h2 b (by simp)) h.1
      have ht : t1 = t2 :=
        ih t2 (fun d hd => h1 d (by simp [hd])) (fun d hd => h2 d (by simp [hd])) h.2
      rw [ha, ht]

theorem decimalChars_injective : Function.Injective decimalChars := by
  intro m n h
  have bound : ∀ j : ℕ, ∀ d ∈ Nat.digits 10 j, d < 10 := fun j d hd =>
    Nat.digits_lt_base (by norm_num) hd
  by_cases hm : m = 0 <;> by_cases hn : n = 0
  · rw [hm, hn]
  · exfalso
    rw [decimalChars, decimalChars, if_pos hm, if_neg hn] at h
    have h2 : (Nat.digits 10 n).map Nat.digitChar = [(0 : ℕ)].map Nat.digitChar := by
      have := congrArg List.reverse h
      simpa using this.symm
    have h3 : Nat.digits 10 n = [0] :=
      map_digitChar_inj _ _ (bound n) (by simp) h2
    have h4 := Nat.ofDigits_digits 10 n
    rw [h3] at h4
    simp [Nat.ofDigits] at h4
    exact hn h4.symm
  · exfalso
    rw [decimalChars, decimalChars, if_neg hm, if_pos hn] at h
    have h2 : (Nat.digits 10 m).map Nat.digitChar = [(0 : ℕ)].map Nat.digitChar := by
      have := congrArg List.reverse h
      simpa using this
    have h3 : Nat.digits 10 m = [0] :=
      map_digitChar_inj _ _ (bound m) (by simp) h2
    have h4 := Nat.ofDigits_digits 10 m
    rw [h3] at h4
    simp [Nat.ofDigits] at h4
    exact hm h4.symm
  · rw [decimalChars, decimalChars, if_neg hm, if_neg hn] at h
    have h2 := List.reverse_injective h
    exact Nat.digits_inj_iff.mp (map_digitChar_inj _ _ (bound m) (bound n) h2)

theorem strOfNat_injective : Function.Injective strOfNat := by
  intro a b h
  exact decimalChars_injective (congrArg String.data h)

theorem mem_rangeList {start stop k : ℕ} :
    k ∈ rangeList start stop ↔ start ≤ k ∧ k < stop := by
  simp only [rangeList, List.mem_map, List.mem_range]
  constructor
  · rintro ⟨i, hi, rfl⟩
    omega
  · intro hk
    exact ⟨k - start, by omega, by omega⟩

theorem rangeList_nodup (start stop : ℕ) : (rangeList start stop).Nodup :=
  (List.nodup_range _).map fun a b h => by omega

/-- C3: every invocation of the input generator on a size class returns
exactly `n` distinct tokens, each the decimal rendering of its integer,
whose integer values are exactly the class's range — for every possible
shuffle, i.e. for every permutation `l` of `list(range(start, stop))`. -/
theorem spec_C3 (start stop : ℕ) (l : List ℕ) (h : l.Perm (rangeList start stop)) :
    (create_test_input l).length = stop - start ∧
    (create_test_input l).Nodup ∧
    ∀ s, s ∈ create_test_input l ↔ ∃ k, start ≤ k ∧ k < stop ∧ s = strOfNat k := by
  refine ⟨?_, ?_, ?_⟩
  · rw [create_test_input, List.length_map, h.length_eq, rangeList,
      List.length_map, List.length_range]
  · exact (h.nodup_iff.mpr (rangeList_nodup start stop)).map strOfNat_injective
  · intro s
    simp only [create_test_input, List.mem_map, h.mem_iff, mem_rangeList]
    constructor
    · rintro ⟨k, hk, rfl⟩
      exact ⟨k, hk.1, hk.2, rfl⟩
    · rintro ⟨k, h1, h2, rfl⟩
      exact ⟨k, ⟨h1, h2⟩, rfl⟩

/-- Witness for `spec_C3`: the shuffle `[2, 0, 1]` of `range(0, 3)`. -/
theorem spec_C3_witness : (create_test_input [2, 0, 1]).length = 3 - 0 :=
  (spec_C3 0 3 [2, 0, 1] (by decide)).1

/-- C2: `run_test` classifies each trial in priority order — non-zero
exit status gives the process-failure sentinel carrying that exit code;
otherwise, if no stdout line matches the line-anchored pattern, the
parse-failure sentinel; otherwise the digits of the first matching line
parsed as a non-negative integer. -/
theorem spec_C2 (t : Trial) :
    (t.returncode ≠ 0 →
      run_test t = (ErrorCode.RETURNCODE_ERROR, t.inputs, t.returncode)) ∧
    (t.returncode = 0 → (∀ l ∈ splitOnChar '\n' t.stdout, isCompLine l = false) →
      run_test t = (ErrorCode.NO_NUMBER_OF_COMPARISONS, t.inputs, t.returncode)) ∧
    (∀ line, t.returncode = 0 →
      (splitOnChar '\n' t.stdout).find? isCompLine = some line →
      run_test t = ((natOfDigits (line.drop compPat.length) : ℤ), t.inputs, t.returncode) ∧
        0 ≤ (run_test t).1) := by
  refine ⟨fun h => by simp [run_test, h], fun h0 hall => ?_, fun line h0 hf => ?_⟩
  · have hnone : (splitOnChar '\n' t.stdout).find? isCompLine = none :=
      List.find?_eq_none.mpr fun a ha => by simp [hall a ha]
    simp [run_test, h0, hnone]
  · have h1 : run_test t =
        ((natOfDigits (line.drop compPat.length) : ℤ), t.inputs, t.returncode) := by
      simp [run_test, h0, hf]
    exact ⟨h1, by rw [h1]; exact Int.natCast_nonneg _⟩

/-- Witness for `spec_C2`: one trial of each of the three classes. -/
theorem spec_C2_witness :
    run_test ⟨["1"], 2, "Number of comparisons: 4".toList⟩ =
      (ErrorCode.RETURNCODE_ERROR, ["1"], 2) ∧
    run_test ⟨["1"], 0, "done".toList⟩ = (ErrorCode.NO_NUMBER_OF_COMPARISONS, ["1"], 0) ∧
    run_test ⟨["1"], 0, "Number of comparisons: 4".toList⟩ = ((4 : ℤ), ["1"], 0) := by
  refine ⟨(spec_C2 _).1 (by decide), (spec_C2 _).2.1 rfl (by decide), ?_⟩
  have h := ((spec_C2 ⟨["1"], 0, "Number of comparisons: 4".toList⟩).2.2
    "Number of comparisons: 4".toList rfl (by decide)).1
  exact h.trans (by decide)

/-- C10: the first component of a `run_test` result is non-negative
exactly when the trial succeeded, and otherwise it is one of the two
negative sentinels `-1` (process failure) and `-2` (parse failure), so
the caller's dispatch on that component cannot confuse the cases. -/
theorem spec_C10 (t : Trial) :
    (0 ≤ (run_test t).1 ↔
      t.returncode = 0 ∧
        ∃ line, (splitOnChar '\n' t.stdout).find? isCompLine = some line) ∧
    ((run_test t).1 = ErrorCode.RETURNCODE_ERROR ∨
      (run_test t).1 = ErrorCode.NO_NUMBER_OF_COMPARISONS ∨ 0 ≤ (run_test t).1) := by
  by_cases hrc : t.returncode = 0
  · cases hf : (splitOnChar '\n' t.stdout).find? isCompLine with
    | none =>
      simp [run_test, hrc, hf, ErrorCode.NO_NUMBER_OF_COMPARISONS]
    | some line =>
      simp [run_test, hrc, hf, Int.natCast_nonneg]
  · simp [run_test, hrc, ErrorCode.RETURNCODE_ERROR]

theorem splitOnChar_of_not_mem {c : Char} {l : List Char} (h : c ∉ l) :
    splitOnChar c l = [l] := by
  induction l with
  | nil => rfl
  | cons x xs ih =>
    have hx : x ≠ c := fun he => h (he ▸ List.mem_cons_self x xs)
    have hxs : c ∉ xs := fun hm => h (List.mem_cons_of_mem _ hm)
    simp [splitOnChar, hx, ih hxs]

theorem splitOnChar_append {c : Char} {a : List Char} (b : List Char) (h : c ∉ a) :
    splitOnChar c (a ++ c :: b) = a :: splitOnChar c b := by
  induction a with
  | nil => simp [splitOnChar]
  | cons x xs ih =>
    have hx : x ≠ c := fun he => h (he ▸ List.mem_cons_self x xs)
    have hxs : c ∉ xs := fun hm => h (List.mem_cons_of_mem _ hm)
    simp [splitOnChar, hx, ih hxs]

/-- C9: range validation rejects degenerate and reversed ranges alike.
For any token `start-end` of digit strings whose numeric start is at
least its numeric end, the parsed range is `None` or empty, its Python
truthiness is false, so `valid_range`'s `all(ranges)` test fails and the
`ArgumentTypeError` is raised for any argument containing the token; and
conversely any token list that passes validation parses to non-empty
ranges only, so no empty size class reaches the testing loop. -/
theorem spec_C9 :
    (∀ da db : List Char, da ≠ [] → db ≠ [] →
      (∀ c ∈ da, c.isDigit = true) → (∀ c ∈ db, c.isDigit = true) →
      natOfDigits db ≤ natOfDigits da →
      (extract_range (da ++ '-' :: db) = none ∨
        ∃ a b, extract_range (da ++ '-' :: db) = some (a, b) ∧ b ≤ a) ∧
      rangeTruthy (extract_range (da ++ '-' :: db)) = false ∧
      ∀ toks, (da ++ '-' :: db) ∈ toks → valid_range_check toks = false) ∧
    (∀ toks, valid_range_check toks = true →
      ∀ t ∈ toks, ∃ a b, extract_range t = some (a, b) ∧ a < b) := by
  constructor
  · intro da db _ _ hdiga hdigb hle
    have hnda : '-' ∉ da := fun hm => absurd (hdiga _ hm) (by decide)
    have hndb : '-' ∉ db := fun hm => absurd (hdigb _ hm) (by decide)
    have hsplit : splitOnChar '-' (da ++ '-' :: db) = [da, db] := by
      rw [splitOnChar_append db hnda, splitOnChar_of_not_mem hndb]
    have hparts : extract_range (da ++ '-' :: db) =
        if da = db then none else some (natOfDigits da, natOfDigits db) := by
      rw [extract_range, hsplit]
      simp
    have hfalse : rangeTruthy (extract_range (da ++ '-' :: db)) = false := by
      rw [hparts]
      by_cases he : da = db
      · simp [he, rangeTruthy]
      · simp [he, rangeTruthy]
        omega
    refine ⟨?_, hfalse, ?_⟩
    · rw [hparts]
      by_cases he : da = db
      · exact Or.inl (by simp [he])
      · exact Or.inr ⟨natOfDigits da, natOfDigits db, by simp [he], hle⟩
    · intro toks htm
      rw [valid_range_check]
      refine List.all_eq_false.mpr ⟨extract_range (da ++ '-' :: db), List.mem_map_of_mem _ htm, ?_⟩
      simp [hfalse]
  · intro toks hall t ht
    have htr := List.all_eq_true.mp hall (extract_range t) (List.mem_map_of_mem _ ht)
    cases hex : extract_range t with
    | none => rw [hex] at htr; simp [rangeTruthy] at htr
    | some p =>
      obtain ⟨a, b⟩ := p
      rw [hex] at htr
      simp [rangeTruthy] at htr
      exact ⟨a, b, rfl, htr⟩

/-- Witness for `spec_C9`: the reversed range token `100-50`. -/
theorem spec_C9_witness :
    rangeTruthy (extract_range ("100".toList ++ '-' :: "50".toList)) = false :=
  ((spec_C9.1 "100".toList "50".toList (by decide) (by decide) (by decide) (by decide)
    (by decide)).2).1

theorem run_test_inputs (t : Trial) : (run_test t).2.1 = t.inputs := by
  by_cases h : t.returncode = 0
  · cases hf : (splitOnChar '\n' t.stdout).find? isCompLine <;> simp [run_test, h, hf]
  · simp [run_test, h]

theorem run_test_rc (t : Trial) : (run_test t).2.2 = t.returncode := by
  by_cases h : t.returncode = 0
  · cases hf : (splitOnChar '\n' t.stdout).find? isCompLine <;> simp [run_test, h, hf]
  · simp [run_test, h]

theorem run_test_fst_cases (t : Trial) :
    (run_test t).1 = -1 ∨ (run_test t).1 = -2 ∨ 0 ≤ (run_test t).1 := by
  by_cases h : t.returncode = 0
  · cases hf : (splitOnChar '\n' t.stdout).find? isCompLine with
    | none =>
      simp [run_test, h, hf, ErrorCode.NO_NUMBER_OF_COMPARISONS]
    | some line =>
      simp [run_test, h, hf, Int.natCast_nonneg]
  · simp [run_test, h, ErrorCode.RETURNCODE_ERROR]

theorem run_test_fail1_of_rc {t : Trial} (h : t.returncode ≠ 0) :
    (run_test t).1 = -1 := by
  simp [run_test, h, ErrorCode.RETURNCODE_ERROR]

theorem runTrials_cons_fail1 {bound : ℤ} {failed : Bool} {results : List ℤ}
    {evs : List Event} {t : Trial} {ts : List Trial} (h : (run_test t).1 = -1) :
    runTrials bound failed results evs (t :: ts) =
      .error (evs ++ [⟨.stderr, .execFailed (run_test t).2.2 (run_test t).2.1⟩]) := by
  simp [runTrials, ErrorCode.RETURNCODE_ERROR, h]

theorem runTrials_cons_fail2 {bound : ℤ} {failed : Bool} {results : List ℤ}
    {evs : List Event} {t : Trial} {ts : List Trial} (h : (run_test t).1 = -2) :
    runTrials bound failed results evs (t :: ts) =
      .error (evs ++ [⟨.stderr, .parseAdvice⟩]) := by
  simp [runTrials, ErrorCode.RETURNCODE_ERROR, ErrorCode.NO_NUMBER_OF_COMPARISONS, h]

theorem runTrials_cons_exceed {bound : ℤ} {failed : Bool} {results : List ℤ}
    {evs : List Event} {t : Trial} {ts : List Trial}
    (h0 : 0 ≤ (run_test t).1) (h : bound < (run_test t).1) :
    runTrials bound failed results evs (t :: ts) =
      runTrials bound true (results ++ [(run_test t).1])
        (evs ++ [⟨.stderr, .exceededWarning (run_test t).2.1⟩]) ts := by
  have h1 : ¬(run_test t).1 = ErrorCode.RETURNCODE_ERROR := by
    rw [ErrorCode.RETURNCODE_ERROR]; omega
  have h2 : ¬(run_test t).1 = ErrorCode.NO_NUMBER_OF_COMPARISONS := by
    rw [ErrorCode.NO_NUMBER_OF_COMPARISONS]; omega
  simp [runTrials, h1, h2, h]

theorem runTrials_cons_within {bound : ℤ} {failed : Bool} {results : List ℤ}
    {evs : List Event} {t : Trial} {ts : List Trial}
    (h0 : 0 ≤ (run_test t).1) (h : ¬bound < (run_test t).1) :
    runTrials bound failed results evs (t :: ts) =
      runTrials bound failed (results ++ [(run_test t).1]) evs ts := by
  have h1 : ¬(run_test t).1 = ErrorCode.RETURNCODE_ERROR := by
    rw [ErrorCode.RETURNCODE_ERROR]; omega
  have h2 : ¬(run_test t).1 = ErrorCode.NO_NUMBER_OF_COMPARISONS := by
    rw [ErrorCode.NO_NUMBER_OF_COMPARISONS]; omega
  simp [runTrials, h1, h2, h]

theorem runTrials_ok_spec :
    ∀ (ts : List Trial) (bound : ℤ) (failed : Bool) (results : List ℤ) (evs : List Event)
      (f : Bool) (res : List ℤ) (evs2 : List Event),
      runTrials bound failed results evs ts = .ok (f, res, evs2) →
      (∀ t ∈ ts, 0 ≤ (run_test t).1) ∧
      res = results ++ ts.map (fun t => (run_test t).1) ∧
      f = (failed || ts.any fun t => decide (bound < (run_test t).1)) ∧
      ∃ newEvs, evs2 = evs ++ newEvs ∧
        ∀ e ∈ newEvs, e.stream = .stderr ∧ ∃ inp, e.msg = .exceededWarning inp := by
  intro ts
  induction ts with
  | nil =>
    intro bound failed results evs f res evs2 h
    simp only [runTrials, Except.ok.injEq, Prod.mk.injEq] at h
    obtain ⟨h1, h2, h3⟩ := h
    exact ⟨by simp, by simp [h2.symm], by simp [h1.symm],
      [], by simp [h3.symm], by simp⟩
  | cons t ts ih =>
    intro bound failed results evs f res evs2 h
    rcases run_test_fst_cases t with h1 | h1 | h1
    · rw [runTrials_cons_fail1 h1] at h
      simp at h
    · rw [runTrials_cons_fail2 h1] at h
      simp at h
    · by_cases hb : bound < (run_test t).1
      · rw [runTrials_cons_exceed h1 hb] at h
        obtain ⟨ha, hres, hf, newEvs, hevs, hne⟩ := ih _ _ _ _ _ _ _ h
        refine ⟨?_, ?_, ?_, ⟨.stderr, .exceededWarning (run_test t).2.1⟩ :: newEvs, ?_, ?_⟩
        · rw [List.forall_mem_cons]
          exact ⟨h1, ha⟩
        · rw [hres]
          simp
        · rw [hf]
          simp [hb]
        · rw [hevs]
          simp
        · rw [List.forall_mem_cons]
          exact ⟨⟨rfl, _, rfl⟩, hne⟩
      · rw [runTrials_cons_within h1 hb] at h
        obtain ⟨ha, hres, hf, newEvs, hevs, hne⟩ := ih _ _ _ _ _ _ _ h
        refine ⟨?_, ?_, ?_, newEvs, hevs, hne⟩
        · rw [List.forall_mem_cons]
          exact ⟨h1, ha⟩
        · rw [hres]
          simp
        · rw [hf]
          simp [hb]

theorem runTrials_ok_of_forall :
    ∀ (ts : List Trial) (bound : ℤ) (failed : Bool) (results : List ℤ) (evs : List Event),
      (∀ t ∈ ts, 0 ≤ (run_test t).1) →
      ∃ x, runTrials bound failed results evs ts = .ok x := by
  intro ts
  induction ts with
  | nil =>
    intro bound failed results evs _
    exact ⟨_, rfl⟩
  | cons t ts ih =>
    intro bound failed results evs hall
    have h0 := hall t (by simp)
    by_cases hb : bound < (run_test t).1
    · rw [runTrials_cons_exceed h0 hb]
      exact ih _ _ _ _ fun u hu => hall u (by simp [hu])
    · rw [runTrials_cons_within h0 hb]
      exact ih _ _ _ _ fun u hu => hall u (by simp [hu])

theorem runTrials_error_spec :
    ∀ (ts : List Trial) (bound : ℤ) (failed : Bool) (results : List ℤ) (evs : List Event)
      (e : List Event),
      runTrials bound failed results evs ts = .error e →
      ∃ newEvs, e = evs ++ newEvs ∧
        ∀ ev ∈ newEvs, ev.stream = .stderr ∧
          ev.msg ≠ .someFailed ∧ ev.msg ≠ .allPassed ∧ ev.msg ≠ .blank := by
  intro ts
  induction ts with
  | nil =>
    intro bound failed results evs e h
    simp [runTrials] at h
  | cons t ts ih =>
    intro bound failed results evs e h
    rcases run_test_fst_cases t with h1 | h1 | h1
    · rw [runTrials_cons_fail1 h1] at h
      simp only [Except.error.injEq] at h
      exact ⟨[⟨.stderr, .execFailed (run_test t).2.2 (run_test t).2.1⟩], h.symm, by simp⟩
    · rw [runTrials_cons_fail2 h1] at h
      simp only [Except.error.injEq] at h
      exact ⟨[⟨.stderr, .parseAdvice⟩], h.symm, by simp⟩
    · by_cases hb : bound < (run_test t).1
      · rw [runTrials_cons_exceed h1 hb] at h
        obtain ⟨newEvs, hevs, hne⟩ := ih _ _ _ _ _ h
        refine ⟨⟨.stderr, .exceededWarning (run_test t).2.1⟩ :: newEvs, ?_, ?_⟩
        · rw [hevs]
          simp
        · rw [List.forall_mem_cons]
          exact ⟨⟨rfl, by simp⟩, hne⟩
      · rw [runTrials_cons_within h1 hb] at h
        exact ih _ _ _ _ _ h

theorem runClass_ok_spec {size : ℕ} {failed : Bool} {evs : List Event} {trials : List Trial}
    {f : Bool} {st : ClassStats} {evs2 : List Event}
    (h : runClass size failed evs trials = .ok (f, st, evs2)) :
    (∀ t ∈ trials, 0 ≤ (run_test t).1) ∧
    f = (failed || trials.any fun t =>
      decide (calculate_number_of_maximal_comparisons size < (run_test t).1)) ∧
    (∃ r rs, trials.map (fun t => (run_test t).1) = r :: rs ∧
      st = classAggregates (calculate_number_of_maximal_comparisons size) r rs) ∧
    ∃ newEvs, evs2 = evs ++ newEvs ∧
      ∀ e ∈ newEvs, e.msg ≠ .someFailed ∧ e.msg ≠ .allPassed := by
  unfold runClass at h
  cases hr : runTrials (calculate_number_of_maximal_comparisons size) failed []
      (evs ++ [⟨.stdout, .classHeader size⟩]) trials with
  | error e =>
    rw [hr] at h
    simp at h
  | ok x =>
    obtain ⟨f1, results, evs3⟩ := x
    rw [hr] at h
    obtain ⟨hall, hres, hf1, newEvs, hevs3, hne⟩ :=
      runTrials_ok_spec _ _ _ _ _ _ _ _ hr
    cases results with
    | nil => simp at h
    | cons r rs =>
      simp only [Except.ok.injEq, Prod.mk.injEq] at h
      obtain ⟨hf, hst, hevs2⟩ := h
      refine ⟨hall, by rw [← hf, hf1], ⟨r, rs, by simpa using hres.symm, hst.symm⟩,
        ⟨.stdout, .classHeader size⟩ :: newEvs ++
          [⟨.stdout, .maxAllowed size (calculate_number_of_maximal_comparisons size)⟩,
           ⟨.stdout, .worstLine (classAggregates (calculate_number_of_maximal_comparisons size) r rs).worst
             (decide (calculate_number_of_maximal_comparisons size <
               (classAggregates (calculate_number_of_maximal_comparisons size) r rs).worst))⟩,
           ⟨.stdout, .bestLine (classAggregates (calculate_number_of_maximal_comparisons size) r rs).best
             (decide (calculate_number_of_maximal_comparisons size <
               (classAggregates (calculate_number_of_maximal_comparisons size) r rs).best))⟩,
           ⟨.stdout, .averageLine (classAggregates (calculate_number_of_maximal_comparisons size) r rs).average
             (decide ((calculate_number_of_maximal_comparisons size : ℚ) <
               (classAggregates (calculate_number_of_maximal_comparisons size) r rs).average))⟩],
        ?_, ?_⟩
      · rw [← hevs2, hevs3]
        simp
      · intro e he
        rcases List.mem_cons.mp he with rfl | he2
        · simp
        rcases List.mem_append.mp he2 with he3 | he3
        · obtain ⟨inp, hmsg⟩ := (hne e he3).2
          simp [hmsg]
        · fin_cases he3 <;> simp

theorem runClass_error_spec {size : ℕ} {failed : Bool} {evs : List Event} {trials : List Trial}
    {e : List Event} (h : runClass size failed evs trials = .error e) :
    ∃ newEvs, e = evs ++ newEvs ∧
      ∀ ev ∈ newEvs, ev.msg ≠ .someFailed ∧ ev.msg ≠ .allPassed := by
  unfold runClass at h
  cases hr : runTrials (calculate_number_of_maximal_comparisons size) failed []
      (evs ++ [⟨.stdout, .classHeader size⟩]) trials with
  | error e2 =>
    rw [hr] at h
    simp only [Except.error.injEq] at h
    obtain ⟨newEvs, hevs, hne⟩ := runTrials_error_spec _ _ _ _ _ _ hr
    refine ⟨⟨.stdout, .classHeader size⟩ :: newEvs, ?_, ?_⟩
    · rw [← h, hevs]
      simp
    · rw [List.forall_mem_cons]
      exact ⟨by simp, fun ev hev => ⟨(hne ev hev).2.1, (hne ev hev).2.2.1⟩⟩
  | ok x =>
    obtain ⟨f1, results, evs3⟩ := x
    rw [hr] at h
    obtain ⟨hall, hres, hf1, newEvs, hevs3, hne⟩ :=
      runTrials_ok_spec _ _ _ _ _ _ _ _ hr
    cases results with
    | nil =>
      simp only [Except.error.injEq] at h
      refine ⟨⟨.stdout, .classHeader size⟩ :: newEvs ++ [⟨.stderr, .valueErrorTraceback⟩],
        ?_, ?_⟩
      · rw [← h, hevs3]
        simp
      · intro ev hev
        rcases List.mem_cons.mp hev with rfl | hev2
        · simp
        rcases List.mem_append.mp hev2 with hev3 | hev3
        · obtain ⟨inp, hmsg⟩ := (hne ev hev3).2
          simp [hmsg]
        · rcases List.mem_singleton.mp hev3 with rfl
          simp
    | cons r rs => simp at h

theorem runClass_ok_exists {size : ℕ} {failed : Bool} {evs : List Event} {trials : List Trial}
    (hne : trials ≠ []) (hall : ∀ t ∈ trials, 0 ≤ (run_test t).1) :
    ∃ x, runClass size failed evs trials = .ok x := by
  obtain ⟨⟨f1, results, evs3⟩, hr⟩ := runTrials_ok_of_forall trials
    (calculate_number_of_maximal_comparisons size) failed []
    (evs ++ [⟨.stdout, .classHeader size⟩]) hall
  have hres := (runTrials_ok_spec _ _ _ _ _ _ _ _ hr).2.1
  cases hm : trials.map (fun t => (run_test t).1) with
  | nil => exact absurd (List.map_eq_nil_iff.mp hm) hne
  | cons r rs =>
    rw [hm] at hres
    unfold runClass
    rw [hr, hres]
    simp

theorem runClasses_failed_one :
    ∀ (cs : List (ℕ × List Trial)) (evs : List Event), (runClasses cs true evs).1 = 1 := by
  intro cs
  induction cs with
  | nil =>
    intro evs
    simp [runClasses]
  | cons c cs ih =>
    intro evs
    obtain ⟨size, trials⟩ := c
    simp only [runClasses]
    cases hr : runClass size true evs trials with
    | error e => rfl
    | ok x =>
      obtain ⟨f1, st, evs1⟩ := x
      have hf := (runClass_ok_spec hr).2.1
      simp only [Bool.true_or] at hf
      rw [hf]
      apply ih

theorem runClasses_exit_zero_iff :
    ∀ (cs : List (ℕ × List Trial)) (failed : Bool) (evs : List Event),
      (∀ c ∈ cs, c.2 ≠ []) →
      ((runClasses cs failed evs).1 = 0 ↔
        (failed = false ∧ ∀ c ∈ cs, ∀ t ∈ c.2,
          0 ≤ (run_test t).1 ∧
          (run_test t).1 ≤ calculate_number_of_maximal_comparisons c.1)) := by
  intro cs
  induction cs with
  | nil =>
    intro failed evs _
    cases failed <;> simp [runClasses]
  | cons c cs ih =>
    intro failed evs hne
    obtain ⟨size, trials⟩ := c
    have htne : trials ≠ [] := hne (size, trials) (by simp)
    simp only [runClasses]
    cases hr : runClass size failed evs trials with
    | error e =>
      simp only []
      constructor
      · intro h10
        exact absurd h10 (by norm_num)
      · rintro ⟨hf, hall⟩
        exfalso
        obtain ⟨x, hx⟩ := runClass_ok_exists htne
          (fun t ht => (hall (size, trials) (by simp) t ht).1)
        rw [hr] at hx
        simp at hx
    | ok x =>
      obtain ⟨f1, st, evs1⟩ := x
      obtain ⟨hall, hf1, _, _⟩ := runClass_ok_spec hr
      rw [ih f1 _ (fun c hc => hne c (by simp [hc]))]
      simp only [List.forall_mem_cons]
      constructor
      · rintro ⟨hf0, hrest⟩
        rw [hf1] at hf0
        simp only [Bool.or_eq_false_iff] at hf0
        obtain ⟨hfailed, hany⟩ := hf0
        refine ⟨hfailed, ⟨?_, hrest⟩⟩
        intro t ht
        refine ⟨hall t ht, ?_⟩
        have := List.any_eq_false.mp hany t ht
        simp only [decide_eq_true_eq] at this
        omega
      · rintro ⟨hfailed, hhead, hrest⟩
        refine ⟨?_, hrest⟩
        rw [hf1, hfailed]
        simp only [Bool.false_or]
        apply List.any_eq_false.mpr
        intro t ht
        simp only [decide_eq_true_eq]
        have := (hhead t ht).2
        omega

theorem runClasses_verdict_stdout :
    ∀ (cs : List (ℕ × List Trial)) (failed : Bool) (evs : List Event),
      (∀ e ∈ evs, (e.msg = .someFailed ∨ e.msg = .allPassed) → e.stream = .stdout) →
      ∀ e ∈ (runClasses cs failed evs).2,
        (e.msg = .someFailed ∨ e.msg = .allPassed) → e.stream = .stdout := by
  intro cs
  induction cs with
  | nil =>
    intro failed evs hinv e he hm
    cases failed <;> simp only [runClasses] at he <;>
      rcases List.mem_append.mp he with h | h
    · exact hinv e h hm
    · rcases List.mem_singleton.mp h with rfl
      rfl
    · exact hinv e h hm
    · rcases List.mem_singleton.mp h with rfl
      rfl
  | cons c cs ih =>
    intro failed evs hinv e
    obtain ⟨size, trials⟩ := c
    simp only [runClasses]
    cases hr : runClass size failed evs trials with
    | error er =>
      intro he hm
      obtain ⟨new, hnew, hnv⟩ := runClass_error_spec hr
      rw [hnew] at he
      rcases List.mem_append.mp he with h | h
      · exact hinv e h hm
      · exact absurd hm (by
          obtain ⟨h1, h2⟩ := hnv e h
          rintro (hm | hm) <;> contradiction)
    | ok x =>
      obtain ⟨f1, st, evs1⟩ := x
      apply ih
      intro e1 he1 hm1
      obtain ⟨_, _, _, new, hnew, hnv⟩ := runClass_ok_spec hr
      by_cases hcs : cs.isEmpty
      · rw [hcs] at he1
        simp only [if_true] at he1
        rw [hnew] at he1
        rcases List.mem_append.mp he1 with h | h
        · exact hinv e1 h hm1
        · exact absurd hm1 (by
            obtain ⟨h1, h2⟩ := hnv e1 h
            rintro (hm | hm) <;> contradiction)
      · rw [Bool.not_eq_true] at hcs
        rw [hcs] at he1
        simp only [if_false, Bool.false_eq_true] at he1
        rw [hnew] at he1
        rcases List.mem_append.mp he1 with h | h
        · rcases List.mem_append.mp h with h2 | h2
          · exact hinv e1 h2 hm1
          · exact absurd hm1 (by
              obtain ⟨h1, h2a⟩ := hnv e1 h2
              rintro (hm | hm) <;> contradiction)
        · rcases List.mem_singleton.mp h with rfl
          exact absurd hm1 (by rintro (hm | hm) <;> simp at hm)

theorem runClasses_zero_mem_allPassed :
    ∀ (cs : List (ℕ × List Trial)) (failed : Bool) (evs : List Event),
      (runClasses cs failed evs).1 = 0 →
      Event.mk .stdout .allPassed ∈ (runClasses cs failed evs).2 := by
  intro cs
  induction cs with
  | nil =>
    intro failed evs h
    cases failed
    · simp [runClasses]
    · simp [runClasses] at h
  | cons c cs ih =>
    intro failed evs h
    obtain ⟨size, trials⟩ := c
    simp only [runClasses] at h ⊢
    cases hr : runClass size failed evs trials with
    | error e =>
      rw [hr] at h
      simp at h
    | ok x =>
      obtain ⟨f1, st, evs1⟩ := x
      rw [hr] at h
      exact ih _ _ h

theorem seed_le_foldl_max (rs : List ℤ) : ∀ r : ℤ, r ≤ rs.foldl max r := by
  induction rs with
  | nil => intro r; simp
  | cons y ys ih =>
    intro r
    calc r ≤ max r y := le_max_left r y
      _ ≤ ys.foldl max (max r y) := ih _
      _ = (y :: ys).foldl max r := by simp

theorem foldl_max_spec (rs : List ℤ) : ∀ r : ℤ, ∀ x ∈ r :: rs, x ≤ rs.foldl max r := by
  induction rs with
  | nil =>
    intro r x hx
    simp at hx
    simp [hx]
  | cons y ys ih =>
    intro r x hx
    rcases List.mem_cons.mp hx with rfl | hx2
    · exact seed_le_foldl_max _ _
    rcases List.mem_cons.mp hx2 with rfl | hx3
    · calc x ≤ max r x := le_max_right r x
        _ ≤ ys.foldl max (max r x) := seed_le_foldl_max _ _
        _ = ((x :: ys).foldl max r) := by simp
    · have := ih (max r y) x (List.mem_cons_of_mem _ hx3)
      simpa using this

theorem foldl_min_le_seed (rs : List ℤ) : ∀ r : ℤ, rs.foldl min r ≤ r := by
  induction rs with
  | nil => intro r; simp
  | cons y ys ih =>
    intro r
    calc (y :: ys).foldl min r = ys.foldl min (min r y) := by simp
      _ ≤ min r y := ih _
      _ ≤ r := min_le_left r y

theorem foldl_min_spec (rs : List ℤ) : ∀ r : ℤ, ∀ x ∈ r :: rs, rs.foldl min r ≤ x := by
  induction rs with
  | nil =>
    intro r x hx
    simp at hx
    simp [hx]
  | cons y ys ih =>
    intro r x hx
    rcases List.mem_cons.mp hx with rfl | hx2
    · exact foldl_min_le_seed _ _
    rcases List.mem_cons.mp hx2 with rfl | hx3
    · calc (x :: ys).foldl min r = ys.foldl min (min r x) := by simp
        _ ≤ min r x := foldl_min_le_seed _ _
        _ ≤ x := min_le_right r x
    · have := ih (min r y) x (List.mem_cons_of_mem _ hx3)
      simpa using this

theorem classAggregates_ordered (bound r : ℤ) (rs : List ℤ) :
    ((classAggregates bound r rs).best : ℚ) ≤ (classAggregates bound r rs).average ∧
    (classAggregates bound r rs).average ≤ ((classAggregates bound r rs).worst : ℚ) := by
  have hlen : (0 : ℚ) < ((r :: rs).length : ℚ) := by
    have h0 : 0 < (r :: rs).length := by simp
    exact_mod_cast h0
  have hsum_le : (r :: rs).sum ≤ ((r :: rs).length : ℤ) * rs.foldl max r := by
    have h := List.sum_le_card_nsmul (r :: rs) (rs.foldl max r) (foldl_max_spec rs r)
    simpa [nsmul_eq_mul] using h
  have hle_sum : ((r :: rs).length : ℤ) * rs.foldl min r ≤ (r :: rs).sum := by
    have h := List.card_nsmul_le_sum (r :: rs) (rs.foldl min r) (foldl_min_spec rs r)
    simpa [nsmul_eq_mul] using h
  constructor
  · show ((rs.foldl min r : ℤ) : ℚ) ≤ (((r :: rs).sum : ℤ) : ℚ) / ((r :: rs).length : ℚ)
    rw [le_div_iff₀ hlen]
    have hc := (Int.cast_le (R := ℚ)).mpr hle_sum
    push_cast at hc ⊢
    linarith
  · show (((r :: rs).sum : ℤ) : ℚ) / ((r :: rs).length : ℚ) ≤ ((rs.foldl max r : ℤ) : ℚ)
    rw [div_le_iff₀ hlen]
    have hc := (Int.cast_le (R := ℚ)).mpr hsum_le
    push_cast at hc ⊢
    linarith

theorem runClasses_exit_cases :
    ∀ (cs : List (ℕ × List Trial)) (failed : Bool) (evs : List Event),
      (runClasses cs failed evs).1 = 0 ∨ (runClasses cs failed evs).1 = 1 := by
  intro cs
  induction cs with
  | nil =>
    intro failed evs
    cases failed <;> simp [runClasses]
  | cons c cs ih =>
    intro failed evs
    obtain ⟨size, trials⟩ := c
    simp only [runClasses]
    cases hr : runClass size failed evs trials with
    | error e => exact Or.inr rfl
    | ok x =>
      obtain ⟨f1, st, evs1⟩ := x
      exact ih _ _

/-- C4: the harness exits 0 exactly when every trial of every size class
succeeded with a comparison count within that class's bound (so the
worst count is within bound and no trial was fatal); in every other case
it exits 1.  The hypothesis records that each class runs at least one
trial (`--times` is validated positive). -/
theorem spec_C4 (classes : List (ℕ × List Trial)) (h : ∀ c ∈ classes, c.2 ≠ []) :
    ((mainRun classes).1 = 0 ↔
      ∀ c ∈ classes, ∀ t ∈ c.2,
        0 ≤ (run_test t).1 ∧
        (run_test t).1 ≤ calculate_number_of_maximal_comparisons c.1) ∧
    ((mainRun classes).1 = 0 ∨ (mainRun classes).1 = 1) := by
  constructor
  · rw [mainRun, runClasses_exit_zero_iff classes false [] h]
    simp
  · exact runClasses_exit_cases classes false []

/-- Witness for `spec_C4`: a single size class whose single trial
reports a count within the bound, giving exit code 0. -/
theorem spec_C4_witness :
    (mainRun [(1, [⟨["0"], 0, "Number of comparisons: 0".toList⟩])]).1 = 0 :=
  (spec_C4 [(1, [⟨["0"], 0, "Number of comparisons: 0".toList⟩])] (by decide)).1.mpr
    (by decide)

/-- C5 as stated is false on the code: on a parse-failure fatal the
harness prints only the fixed instructional message (tester.py:199-203),
which does not contain the trial's input tokens, before exiting 1. -/
theorem spec_C5_counterexample :
    (mainRun [(3, [⟨["2", "0", "1"], 0, "oops".toList⟩])]).1 = 1 ∧
    Event.mk .stderr .parseAdvice ∈
      (mainRun [(3, [⟨["2", "0", "1"], 0, "oops".toList⟩])]).2 ∧
    ∀ e ∈ (mainRun [(3, [⟨["2", "0", "1"], 0, "oops".toList⟩])]).2,
      msgMentionsInputs ["2", "0", "1"] e.msg = false := by
  decide

/-- C5 amended: a process-failure fatal prints a message carrying the
exact input tokens of the failing trial before the harness exits 1; a
parse-failure fatal prints only the fixed instructional message, which
never mentions any input tokens; either error exits the harness with
code 1 and the error events as the whole output. -/
theorem spec_C5_amended :
    (∀ (bound : ℤ) (failed : Bool) (results : List ℤ) (evs : List Event) (t : Trial)
      (ts : List Trial), t.returncode ≠ 0 →
      runTrials bound failed results evs (t :: ts) =
        .error (evs ++ [⟨.stderr, .execFailed t.returncode t.inputs⟩]) ∧
      msgMentionsInputs t.inputs (Msg.execFailed t.returncode t.inputs) = true) ∧
    (∀ (bound : ℤ) (failed : Bool) (results : List ℤ) (evs : List Event) (t : Trial)
      (ts : List Trial), t.returncode = 0 →
      (splitOnChar '\n' t.stdout).find? isCompLine = none →
      runTrials bound failed results evs (t :: ts) =
        .error (evs ++ [⟨.stderr, .parseAdvice⟩]) ∧
      ∀ inp, msgMentionsInputs inp Msg.parseAdvice = false) ∧
    (∀ (size : ℕ) (trials : List Trial) (rest : List (ℕ × List Trial)) (failed : Bool)
      (evs e : List Event), runClass size failed evs trials = .error e →
      runClasses ((size, trials) :: rest) failed evs = (1, e)) := by
  refine ⟨?_, ?_, ?_⟩
  · intro bound failed results evs t ts h
    have h1 := run_test_fail1_of_rc h
    rw [runTrials_cons_fail1 h1, run_test_rc, run_test_inputs]
    exact ⟨rfl, by simp [msgMentionsInputs]⟩
  · intro bound failed results evs t ts h0 hf
    have h2 : (run_test t).1 = -2 := by
      simp [run_test, h0, hf, ErrorCode.NO_NUMBER_OF_COMPARISONS]
    rw [runTrials_cons_fail2 h2]
    exact ⟨rfl, fun inp => rfl⟩
  · intro size trials rest failed evs e h
    simp [runClasses, h]

/-- Witness for `spec_C5_amended`: a trial exiting with status 2. -/
theorem spec_C5_amended_witness :
    runTrials 0 false [] [] [⟨["7"], 2, []⟩] =
      .error [⟨.stderr, .execFailed 2 ["7"]⟩] := by
  have h := (spec_C5_amended.1 0 false [] [] ⟨["7"], 2, []⟩ [] (by decide)).1
  exact h.trans rfl

/-- C6: a bound-exceeded trial is non-fatal: its count is still recorded
in the class's results, a warning carrying the offending input is
printed, the loop simply continues with the failure flag set, and a set
failure flag forces final exit code 1 through all remaining classes. -/
theorem spec_C6 :
    (∀ (bound : ℤ) (failed : Bool) (results : List ℤ) (evs : List Event) (t : Trial)
      (ts : List Trial), 0 ≤ (run_test t).1 → bound < (run_test t).1 →
      runTrials bound failed results evs (t :: ts) =
        runTrials bound true (results ++ [(run_test t).1])
          (evs ++ [⟨.stderr, .exceededWarning t.inputs⟩]) ts) ∧
    (∀ (rest : List (ℕ × List Trial)) (evs : List Event),
      (runClasses rest true evs).1 = 1) := by
  constructor
  · intro bound failed results evs t ts h0 hb
    rw [runTrials_cons_exceed h0 hb, run_test_inputs]
  · exact runClasses_failed_one

/-- Witness for `spec_C6`: one trial reporting 5 against bound 0. -/
theorem spec_C6_witness :
    runTrials 0 false [] [] [⟨["0"], 0, "Number of comparisons: 5".toList⟩] =
      runTrials 0 true [5] [⟨.stderr, .exceededWarning ["0"]⟩] [] := by
  have h := spec_C6.1 0 false [] [] ⟨["0"], 0, "Number of comparisons: 5".toList⟩ []
    (by decide) (by decide)
  exact h.trans rfl

/-- C7: whenever at least one success exists the aggregates satisfy
`worst ≥ average ≥ best`; and the harness never aggregates over zero
successes — a non-fatal pass over a non-empty trial list always leaves a
non-empty result list, and the aggregation code path is reached only
with a non-empty result list. -/
theorem spec_C7 :
    (∀ (bound : ℤ) (failed : Bool) (evs : List Event) (trials : List Trial) (f : Bool)
      (res : List ℤ) (evs2 : List Event), trials ≠ [] →
      runTrials bound failed [] evs trials = .ok (f, res, evs2) → res ≠ []) ∧
    (∀ (size : ℕ) (failed : Bool) (evs : List Event) (trials : List Trial) (f : Bool)
      (st : ClassStats) (evs2 : List Event),
      runClass size failed evs trials = .ok (f, st, evs2) →
      (st.best : ℚ) ≤ st.average ∧ st.average ≤ (st.worst : ℚ)) := by
  constructor
  · intro bound failed evs trials f res evs2 hne h
    have hres := (runTrials_ok_spec _ _ _ _ _ _ _ _ h).2.1
    rw [hres]
    simp [hne]
  · intro size failed evs trials f st evs2 h
    obtain ⟨_, _, ⟨r, rs, _, hst⟩, _⟩ := runClass_ok_spec h
    rw [hst]
    exact classAggregates_ordered _ r rs

/-- Witness for `spec_C7`: a one-trial class (bound 0, count 5). -/
theorem spec_C7_witness :
    (([5] : List ℤ) ≠ []) ∧
    (((classAggregates (calculate_number_of_maximal_comparisons 1) 5 []).best : ℚ) ≤
      (classAggregates (calculate_number_of_maximal_comparisons 1) 5 []).average ∧
      (classAggregates (calculate_number_of_maximal_comparisons 1) 5 []).average ≤
      ((classAggregates (calculate_number_of_maximal_comparisons 1) 5 []).worst : ℚ)) := by
  constructor
  · exact spec_C7.1 0 false [] [⟨["0"], 0, "Number of comparisons: 5".toList⟩] true [5]
      [⟨.stderr, .exceededWarning ["0"]⟩] (by decide) rfl
  · have hok : (runClass 1 false []
        [⟨["0"], 0, "Number of comparisons: 5".toList⟩]).isOk = true := rfl
    cases hx : runClass 1 false [] [⟨["0"], 0, "Number of comparisons: 5".toList⟩] with
    | error e =>
      rw [hx] at hok
      simp [Except.isOk, Except.toBool] at hok
    | ok x =>
      obtain ⟨f, st, evs2⟩ := x
      have hord := spec_C7.2 1 false [] _ f st evs2 hx
      obtain ⟨_, _, ⟨r, rs, hm, hst⟩, _⟩ := runClass_ok_spec hx
      have hr5 : (run_test (⟨["0"], 0,
          "Number of comparisons: 5".toList⟩ : Trial)).1 = 5 := by decide
      simp only [List.map_cons, List.map_nil, hr5] at hm
      injection hm with hm1 hm2
      subst hm1
      subst hm2
      rw [hst] at hord
      exact hord

/-- C8 as stated is false on the code: on a failed run the final
`SOME OF THE TESTS FAILED` verdict line is written by a plain `print`
call, i.e. to standard output, not to standard error. -/
theorem spec_C8_counterexample :
    (mainRun [(1, [⟨["0"], 0, "Number of comparisons: 5".toList⟩])]).1 = 1 ∧
    Event.mk .stdout .someFailed ∈
      (mainRun [(1, [⟨["0"], 0, "Number of comparisons: 5".toList⟩])]).2 ∧
    Event.mk .stderr .someFailed ∉
      (mainRun [(1, [⟨["0"], 0, "Number of comparisons: 5".toList⟩])]).2 := by
  decide

/-- C8 amended: the final verdict line always goes to standard output:
`ALL OF THE TESTS PASSED` is on stdout whenever the run exits 0, the
failure verdict is emitted as `(stdout, SOME OF THE TESTS FAILED)` with
exit code 1, and no verdict event is ever written to standard error. -/
theorem spec_C8_amended :
    (∀ classes : List (ℕ × List Trial), (mainRun classes).1 = 0 →
      Event.mk .stdout .allPassed ∈ (mainRun classes).2) ∧
    (∀ evs : List Event,
      runClasses [] true evs = (1, evs ++ [Event.mk .stdout .someFailed])) ∧
    (∀ classes : List (ℕ × List Trial), ∀ e ∈ (mainRun classes).2,
      (e.msg = .someFailed ∨ e.msg = .allPassed) → e.stream = .stdout) := by
  refine ⟨?_, ?_, ?_⟩
  · intro classes h
    exact runClasses_zero_mem_allPassed classes false [] h
  · intro evs
    simp [runClasses]
  · intro classes e he hm
    exact runClasses_verdict_stdout classes false [] (by simp) e he hm

/-- Witness for `spec_C8_amended`: an all-passing run. -/
theorem spec_C8_amended_witness :
    Event.mk .stdout .allPassed ∈
      (mainRun [(1, [⟨["0"], 0, "Number of comparisons: 0".toList⟩])]).2 :=
  spec_C8_amended.1 _ (by decide)
